import Mathlib

/-!
# Task state change event handler: shallow embedding

Embedding of `src/agent/eventhandler/task_handler.go` (package
`eventhandler` of the ECS agent).  Go maps keyed by task ARN become
association lists with map-style update (`mapPut` replaces the entry of
an existing key, as a Go map assignment does); goroutines, mutexes and
the remote API become explicit state passing: every lock-protected
critical section of the source is one pure Lean function, and the
outcome of a remote call is an explicit parameter of the drain step.
Collaborators of the handler that live outside `src/` (the `sendable.go`
event wrapper, the counting semaphore, the task status enumeration, the
task engine state) are modelled from the spec and say so in their doc
comments.
-/

namespace EventHandler

/-- Modelled from the spec: the ordinal task status enumeration
(`ecs-agent/api/task/status`) is not under `src/`; only its monotone
order and the `TaskStopped` threshold matter here, so a status is
embedded as its ordinal rank. -/
abbrev TaskStatus := Nat

/-- Modelled from the spec: the rank of the terminal `TaskStopped`
status, the threshold tested by the drain ticker. -/
def TaskStopped : TaskStatus := 6

/-- Modelled from the spec: a task object held by the task-engine state,
exposing its ARN and its current known status (`task.GetKnownStatus`). -/
structure Task where
  arn : String
  knownStatus : TaskStatus
  deriving DecidableEq, Repr

/-- `api.ContainerStateChange`: the fields the handler reads. -/
structure ContainerStateChange where
  taskArn : String
  containerName : String := ""
  status : Nat := 0
  deriving DecidableEq, Repr

/-- `api.ManagedAgentStateChange`: the fields the handler reads. -/
structure ManagedAgentStateChange where
  taskArn : String
  name : String := ""
  status : Nat := 0
  deriving DecidableEq, Repr

/-- `api.TaskStateChange`: the fields the handler reads and writes.
`SetTaskTimestamps` lives in the `api` package (not under `src/`); it is
modelled as setting the `timestampsSet` flag, recording that the
timestamps were populated from the task. -/
structure TaskStateChange where
  taskARN : String
  status : TaskStatus
  task : Option Task := none
  containers : List ContainerStateChange := []
  managedAgents : List ManagedAgentStateChange := []
  timestampsSet : Bool := false
  deriving DecidableEq, Repr

/-- Modelled from the spec: `event.SetTaskTimestamps()` populates the
event's timestamps from the task; embedded as a flag. -/
def TaskStateChange.setTaskTimestamps (e : TaskStateChange) : TaskStateChange :=
  { e with timestampsSet := true }

/-- Modelled from the spec: `sendable.go` is not under `src/`.  A
sendable event wraps one enqueued state change (the handler enqueues
task changes through `newSendableTaskEvent`) together with the values of
the three should-be-sent predicates as the Submitter Worker observes
them when the event reaches the queue front (spec §4.3: they are
computed from the underlying entity's sent flags and current status, and
all three may be false). -/
structure sendableEvent where
  taskChange : TaskStateChange
  containerShouldBeSent : Bool := false
  taskShouldBeSent : Bool := false
  taskAttachmentShouldBeSent : Bool := false
  deriving DecidableEq, Repr

/-- `event.taskArn()`: the sharding key of the wrapped change. -/
def sendableEvent.taskArn (e : sendableEvent) : String :=
  e.taskChange.taskARN

/-- `newSendableTaskEvent`: wrap a task state change for the queue.  The
predicate fields describe the later drain-time evaluation and play no
role at enqueue time. -/
def newSendableTaskEvent (tsc : TaskStateChange) : sendableEvent :=
  { taskChange := tsc }

/-! ## Association-list embedding of Go maps keyed by task ARN -/

/-- Lookup, `m[k]` with its presence bit. -/
def mapGet {α : Type} (m : List (String × α)) (k : String) : Option α :=
  match m with
  | [] => none
  | (k0, v0) :: rest => if k0 = k then some v0 else mapGet rest k

/-- Assignment `m[k] = v`: replaces the entry of an existing key. -/
def mapPut {α : Type} (m : List (String × α)) (k : String) (v : α) : List (String × α) :=
  match m with
  | [] => [(k, v)]
  | (k0, v0) :: rest => if k0 = k then (k, v) :: rest else (k0, v0) :: mapPut rest k v

/-- `delete(m, k)`. -/
def mapDel {α : Type} (m : List (String × α)) (k : String) : List (String × α) :=
  match m with
  | [] => []
  | (k0, v0) :: rest => if k0 = k then mapDel rest k else (k0, v0) :: mapDel rest k

/-- The key set, in iteration order (Go map iteration order is
unspecified; every property proved below is order independent). -/
def mapKeys {α : Type} (m : List (String × α)) : List String :=
  m.map Prod.fst

theorem mapGet_mapPut {α : Type} (m : List (String × α)) (k k' : String) (v : α) :
    mapGet (mapPut m k v) k' = if k = k' then some v else mapGet m k' := by
  induction m with
  | nil => simp [mapPut, mapGet]
  | cons p rest ih =>
    obtain ⟨k0, v0⟩ := p
    by_cases h0 : k0 = k <;> by_cases h1 : k0 = k' <;> by_cases h2 : k = k' <;>
      simp_all [mapPut, mapGet]

theorem mapGet_mapDel {α : Type} (m : List (String × α)) (k k' : String) :
    mapGet (mapDel m k) k' = if k = k' then none else mapGet m k' := by
  induction m with
  | nil => simp [mapDel, mapGet]
  | cons p rest ih =>
    obtain ⟨k0, v0⟩ := p
    by_cases h0 : k0 = k <;> by_cases h1 : k0 = k' <;> by_cases h2 : k = k' <;>
      simp_all [mapDel, mapGet]

theorem mapGet_some_mem {α : Type} (m : List (String × α)) (k : String) (v : α)
    (h : mapGet m k = some v) : (k, v) ∈ m := by
  induction m with
  | nil => simp [mapGet] at h
  | cons p rest ih =>
    obtain ⟨k0, v0⟩ := p
    by_cases h0 : k0 = k
    · simp [mapGet, h0] at h
      simp [h0, h]
    · simp [mapGet, h0] at h
      simp [ih h]

theorem mem_keys_mapGet_isSome {α : Type} (m : List (String × α)) (k : String)
    (h : k ∈ mapKeys m) : (mapGet m k).isSome = true := by
  induction m with
  | nil => simp [mapKeys] at h
  | cons p rest ih =>
    obtain ⟨k0, v0⟩ := p
    by_cases h0 : k0 = k
    · simp [mapGet, h0]
    · simp [mapKeys, h0] at h
      rcases h with h | h
      · exact absurd h.symm h0
      · simpa [mapGet, h0] using ih (by simpa [mapKeys] using h)

/-! ## Per-task queue (`taskSendableEvents`) -/

/-- `taskSendableEvents` (lines 87-101): the per-task FIFO of sendable
events plus the `sending` flag.  The per-queue mutex guarding both is
embedded by making every critical section of the source one pure
function over this structure. -/
structure taskSendableEvents where
  events : List sendableEvent
  sending : Bool
  createdAt : Nat := 0
  taskARN : String
  deriving DecidableEq, Repr

/-- `sendChange` (lines 359-380): under the queue mutex, push the change
to the back of the queue; if `sending` was false, set it to true and
spawn the Submitter Worker.  The returned boolean is the spawn decision,
taken inside the same critical section (the source calls
`go handler.submitTaskEvents` right there). -/
def taskSendableEvents.sendChange (q : taskSendableEvents) (change : sendableEvent) :
    taskSendableEvents × Bool :=
  ({ q with events := q.events ++ [change], sending := true }, !q.sending)

/-! ## Handler registry state -/

/-- `TaskHandler` (lines 55-84): the three ARN-keyed maps guarded by the
registry lock.  The semaphore, data client, ECS client, tick bounds and
context do not carry state that the verified claims depend on and are
kept outside this structure (the semaphore is modelled separately). -/
structure TaskHandler where
  tasksToEvents : List (String × taskSendableEvents) := []
  tasksToContainerStates : List (String × List ContainerStateChange) := []
  tasksToManagedAgentStates : List (String × List ManagedAgentStateChange) := []
  deriving DecidableEq, Repr

/-- `batchContainerEventUnsafe` (lines 263-266): append the container
change to the per-ARN batch buffer. -/
def TaskHandler.batchContainerEventUnsafe (h : TaskHandler) (event : ContainerStateChange) :
    TaskHandler :=
  { h with tasksToContainerStates :=
      (mapPut h.tasksToContainerStates event.taskArn
        (((mapGet h.tasksToContainerStates event.taskArn).getD []) ++ [event])) }

/-- `batchManagedAgentEventUnsafe` (lines 269-272): append the managed
agent change to the per-ARN batch buffer. -/
def TaskHandler.batchManagedAgentEventUnsafe (h : TaskHandler) (event : ManagedAgentStateChange) :
    TaskHandler :=
  { h with tasksToManagedAgentStates :=
      (mapPut h.tasksToManagedAgentStates event.taskArn
        (((mapGet h.tasksToManagedAgentStates event.taskArn).getD []) ++ [event])) }

/-- The fresh queue `getTaskEventsUnsafe` creates on first use
(lines 306-311). -/
def newTaskSendableEvents (taskARN : String) : taskSendableEvents :=
  { events := [], sending := false, createdAt := 0, taskARN := taskARN }

/-- `getTaskEventsUnsafe` (lines 299-317): look the ARN up in
`tasksToEvents`, creating and registering a fresh queue when absent. -/
def TaskHandler.getTaskEventsUnsafe (h : TaskHandler) (event : sendableEvent) :
    TaskHandler × taskSendableEvents :=
  match mapGet h.tasksToEvents (sendableEvent.taskArn event) with
  | some taskEvents => (h, taskEvents)
  | none =>
    let taskEvents := newTaskSendableEvents (sendableEvent.taskArn event)
    ({ h with tasksToEvents := mapPut h.tasksToEvents (sendableEvent.taskArn event) taskEvents },
     taskEvents)

/-- `flushBatchUnsafe` (lines 276-295): append the ARN's buffered
container changes to the task change and delete that buffer entry, then
the same for managed agents; wrap the result as a sendable task event
and hand it to `sendChange` on the ARN's queue.  The updated queue is
stored back (the source mutates it through a pointer).  Returns the new
registry state and whether a Submitter Worker was spawned. -/
def TaskHandler.flushBatchUnsafe (h : TaskHandler) (taskStateChange : TaskStateChange) :
    TaskHandler × Bool :=
  let withContainers := { taskStateChange with
    containers := (taskStateChange.containers ++
      (mapGet h.tasksToContainerStates taskStateChange.taskARN).getD []) }
  let h1 := { h with
    tasksToContainerStates := mapDel h.tasksToContainerStates taskStateChange.taskARN }
  let withAgents := { withContainers with
    managedAgents := (withContainers.managedAgents ++
      (mapGet h1.tasksToManagedAgentStates taskStateChange.taskARN).getD []) }
  let h2 := { h1 with
    tasksToManagedAgentStates := mapDel h1.tasksToManagedAgentStates taskStateChange.taskARN }
  let event := newSendableTaskEvent withAgents
  let r := TaskHandler.getTaskEventsUnsafe h2 event
  let s := taskSendableEvents.sendChange r.2 event
  ({ r.1 with tasksToEvents := mapPut r.1.tasksToEvents (sendableEvent.taskArn event) s.1 }, s.2)

/-- The discriminator `change.GetEventType()` reports
(`statechange.Event` lives outside `src/`; `UnknownEvent` stands for any
value hitting the `default` branch of the dispatch). -/
inductive EventType where
  | TaskEvent
  | ContainerEvent
  | ManagedAgentEvent
  | UnknownEvent
  deriving DecidableEq, Repr

/-- The dynamic payload behind the `statechange.Event` interface value;
a failed Go type assertion is a payload that does not match the reported
event type. -/
inductive StateChangePayload where
  | task (tsc : TaskStateChange)
  | container (csc : ContainerStateChange)
  | managedAgent (msc : ManagedAgentStateChange)
  deriving DecidableEq, Repr

/-- An incoming `statechange.Event`: the discriminator it reports plus
its dynamic payload. -/
structure StateChangeEvent where
  eventType : EventType
  payload : StateChangePayload
  deriving DecidableEq, Repr

/-- Result of one `AddStateChangeEvent` call: the registry state after
the critical section, whether a Submitter Worker goroutine was spawned,
and the returned error. -/
structure AddResult where
  handler : TaskHandler
  spawned : Bool
  error : Option String
  deriving DecidableEq, Repr

/-- `AddStateChangeEvent` (lines 134-169): the whole dispatch runs under
the registry lock (`handler.lock.Lock()` with a deferred unlock), which
this embedding renders as one atomic function on the registry state. -/
def TaskHandler.AddStateChangeEvent (h : TaskHandler) (change : StateChangeEvent) : AddResult :=
  match change.eventType with
  | EventType.TaskEvent =>
    match change.payload with
    | StateChangePayload.task tsc =>
      let r := TaskHandler.flushBatchUnsafe h tsc
      { handler := r.1, spawned := r.2, error := none }
    | _ => { handler := h, spawned := false,
             error := some "eventhandler: unable to get task event from state change event" }
  | EventType.ContainerEvent =>
    match change.payload with
    | StateChangePayload.container csc =>
      { handler := TaskHandler.batchContainerEventUnsafe h csc, spawned := false, error := none }
    | _ => { handler := h, spawned := false,
             error := some "eventhandler: unable to get container event from state change event" }
  | EventType.ManagedAgentEvent =>
    match change.payload with
    | StateChangePayload.managedAgent msc =>
      { handler := TaskHandler.batchManagedAgentEventUnsafe h msc, spawned := false, error := none }
    | _ => { handler := h, spawned := false,
             error := some "eventhandler: unable to get managed agent event from state change event" }
  | EventType.UnknownEvent =>
    { handler := h, spawned := false,
      error := some "eventhandler: unable to determine event type from state change event" }

/-! ## Flush (claim C1) -/

theorem flushBatchUnsafe_spec (h : TaskHandler) (tsc : TaskStateChange) :
    mapGet (TaskHandler.flushBatchUnsafe h tsc).1.tasksToContainerStates tsc.taskARN = none ∧
    mapGet (TaskHandler.flushBatchUnsafe h tsc).1.tasksToManagedAgentStates tsc.taskARN = none ∧
    mapGet (TaskHandler.flushBatchUnsafe h tsc).1.tasksToEvents tsc.taskARN =
      some { (mapGet h.tasksToEvents tsc.taskARN).getD (newTaskSendableEvents tsc.taskARN) with
        events :=
          (((mapGet h.tasksToEvents tsc.taskARN).getD (newTaskSendableEvents tsc.taskARN)).events ++
            [newSendableTaskEvent { tsc with
              containers :=
                (tsc.containers ++ (mapGet h.tasksToContainerStates tsc.taskARN).getD []),
              managedAgents :=
                (tsc.managedAgents ++ (mapGet h.tasksToManagedAgentStates tsc.taskARN).getD []) }]),
        sending := true } := by
  cases hq : mapGet h.tasksToEvents tsc.taskARN with
  | none =>
    simp [TaskHandler.flushBatchUnsafe, TaskHandler.getTaskEventsUnsafe, sendableEvent.taskArn,
      newSendableTaskEvent, taskSendableEvents.sendChange, newTaskSendableEvents,
      mapGet_mapPut, mapGet_mapDel, hq]
  | some q =>
    simp [TaskHandler.flushBatchUnsafe, TaskHandler.getTaskEventsUnsafe, sendableEvent.taskArn,
      newSendableTaskEvent, taskSendableEvents.sendChange, newTaskSendableEvents,
      mapGet_mapPut, mapGet_mapDel, hq]

/-- C1: dispatching a task state change through `AddStateChangeEvent`
flushes the ARN's batch buffers: the call succeeds, the enqueued
sendable event carries the task change with exactly the buffered
container and managed-agent sequences appended in buffer order, both
per-ARN buffer entries are removed, and the event sits at the back of
the ARN's per-task queue whose `sending` flag is set.  The registry
lock, held exclusively for the whole source dispatch, is embedded by the
dispatch being a single atomic function on the registry state. -/
theorem addStateChangeEvent_task_flushes_batches (h : TaskHandler) (tsc : TaskStateChange) :
    (TaskHandler.AddStateChangeEvent h
      { eventType := EventType.TaskEvent, payload := StateChangePayload.task tsc }).error = none ∧
    mapGet (TaskHandler.AddStateChangeEvent h
        { eventType := EventType.TaskEvent,
          payload := StateChangePayload.task tsc }).handler.tasksToContainerStates
      tsc.taskARN = none ∧
    mapGet (TaskHandler.AddStateChangeEvent h
        { eventType := EventType.TaskEvent,
          payload := StateChangePayload.task tsc }).handler.tasksToManagedAgentStates
      tsc.taskARN = none ∧
    mapGet (TaskHandler.AddStateChangeEvent h
        { eventType := EventType.TaskEvent,
          payload := StateChangePayload.task tsc }).handler.tasksToEvents tsc.taskARN =
      some { (mapGet h.tasksToEvents tsc.taskARN).getD (newTaskSendableEvents tsc.taskARN) with
        events :=
          (((mapGet h.tasksToEvents tsc.taskARN).getD (newTaskSendableEvents tsc.taskARN)).events ++
            [newSendableTaskEvent { tsc with
              containers :=
                (tsc.containers ++ (mapGet h.tasksToContainerStates tsc.taskARN).getD []),
              managedAgents :=
                (tsc.managedAgents ++ (mapGet h.tasksToManagedAgentStates tsc.taskARN).getD []) }]),
        sending := true } := by
  refine ⟨rfl, ?_, ?_, ?_⟩
  · exact (flushBatchUnsafe_spec h tsc).1
  · exact (flushBatchUnsafe_spec h tsc).2.1
  · exact (flushBatchUnsafe_spec h tsc).2.2

/-! ## Classification failures (claim C10) -/

/-- C10: whenever `AddStateChangeEvent` returns a non-nil error (unknown
discriminator, or payload failing the type assertion of the declared
discriminator), the registry state is exactly as before the call: no
batch buffer entry, no queue registry entry, and no Submitter Worker
spawned. -/
theorem addStateChangeEvent_error_leaves_state (h : TaskHandler) (change : StateChangeEvent)
    (herr : (TaskHandler.AddStateChangeEvent h change).error.isSome = true) :
    (TaskHandler.AddStateChangeEvent h change).handler = h ∧
    (TaskHandler.AddStateChangeEvent h change).spawned = false := by
  obtain ⟨et, p⟩ := change
  cases et <;> cases p <;> simp [TaskHandler.AddStateChangeEvent] at herr ⊢

theorem addStateChangeEvent_error_leaves_state_witness :
    (TaskHandler.AddStateChangeEvent {}
        { eventType := EventType.TaskEvent,
          payload := StateChangePayload.container { taskArn := "arn-1" } }).error.isSome = true ∧
    ((TaskHandler.AddStateChangeEvent {}
        { eventType := EventType.TaskEvent,
          payload := StateChangePayload.container { taskArn := "arn-1" } }).handler =
        ({} : TaskHandler) ∧
      (TaskHandler.AddStateChangeEvent {}
        { eventType := EventType.TaskEvent,
          payload := StateChangePayload.container { taskArn := "arn-1" } }).spawned = false) :=
  ⟨rfl, addStateChangeEvent_error_leaves_state {} _ rfl⟩

/-! ## The drain step (`submitFirstEvent`)

The remote client and the `sendable.go` helper `event.send` are not
under `src/`.  Per spec §4.4/§4.3, `send` performs the remote call; on
success it writes the sent marker, removes the front element from the
queue and returns nil; on failure it leaves the queue untouched and
returns the error.  The outcome of the one remote call a drain step can
make is an explicit `SendOutcome` parameter, and the step reports its
observable effects (remote calls issued, sent markers written, events
removed) in its result. -/

/-- Outcome of a remote submission attempt: success, the typed
`InvalidParameterException`, or any other (transient) error. -/
inductive SendOutcome where
  | success
  | invalidParameter
  | transientError
  deriving DecidableEq, Repr

/-- A remote API call, as issued through `event.send`: which client
method ran and the event-type string the source passes alongside
(`container`, `task`, `task attachment`). -/
inductive RemoteCall where
  | submitContainerStateChange (e : sendableEvent) (eventType : String)
  | submitTaskStateChange (e : sendableEvent) (eventType : String)
  deriving DecidableEq, Repr

/-- Result of one `submitFirstEvent` drain step: the queue afterwards,
the returned `(done, err)` pair, and the step's observable effects. -/
structure StepResult where
  queue : taskSendableEvents
  done : Bool
  error : Option SendOutcome
  calls : List RemoteCall
  marks : List String
  removed : List sendableEvent
  deriving DecidableEq, Repr

/-- The tail of `submitFirstEvent` (lines 427-433): after a branch that
did not return an error, set `sending := false` and report done when the
list has become empty. -/
def finishStep (q : taskSendableEvents) (rest : List sendableEvent) (calls : List RemoteCall)
    (marks : List String) (removed : List sendableEvent) : StepResult :=
  if rest.isEmpty then
    { queue := { q with events := rest, sending := false }, done := true, error := none,
      calls := calls, marks := marks, removed := removed }
  else
    { queue := { q with events := rest }, done := false, error := none,
      calls := calls, marks := marks, removed := removed }

/-- `handleInvalidParamException` (lines 443-449): when the error is the
typed invalid-parameter error, remove the offending front element
(`eventToSubmit` is always the front, so removal is `tail`). -/
def handleInvalidParamException (err : SendOutcome) (events : List sendableEvent) :
    List sendableEvent :=
  if err = SendOutcome.invalidParameter then events.tail else events

/-- `submitFirstEvent` (lines 387-434): under the queue mutex, inspect
the front of the queue.  An empty queue clears `sending` and reports
done.  Otherwise the three predicates are tried in the fixed order
container, task, task attachment; the first true one selects the
submission path.  On error the step returns `(false, err)` — only the
task and task-attachment paths pass the error through
`handleInvalidParamException` first; the container path (lines 404-408)
returns it directly.  When no predicate holds the redundant front event
is removed without any call.  `outcome` is the result of the one remote
call the selected path makes. -/
def taskSendableEvents.submitFirstEvent (q : taskSendableEvents) (outcome : SendOutcome) :
    StepResult :=
  match q.events with
  | [] =>
    { queue := { q with sending := false }, done := true, error := none,
      calls := [], marks := [], removed := [] }
  | event :: rest =>
    if event.containerShouldBeSent then
      match outcome with
      | SendOutcome.success =>
          finishStep q rest [RemoteCall.submitContainerStateChange event "container"]
            ["container"] [event]
      | o =>
          { queue := q, done := false, error := some o,
            calls := [RemoteCall.submitContainerStateChange event "container"],
            marks := [], removed := [] }
    else if event.taskShouldBeSent then
      match outcome with
      | SendOutcome.success =>
          finishStep q rest [RemoteCall.submitTaskStateChange event "task"] ["task"] [event]
      | o =>
          { queue := { q with events := handleInvalidParamException o (event :: rest) },
            done := false, error := some o,
            calls := [RemoteCall.submitTaskStateChange event "task"], marks := [],
            removed := (if o = SendOutcome.invalidParameter then [event] else []) }
    else if event.taskAttachmentShouldBeSent then
      match outcome with
      | SendOutcome.success =>
          finishStep q rest [RemoteCall.submitTaskStateChange event "task attachment"]
            ["task attachment"] [event]
      | o =>
          { queue := { q with events := handleInvalidParamException o (event :: rest) },
            done := false, error := some o,
            calls := [RemoteCall.submitTaskStateChange event "task attachment"], marks := [],
            removed := (if o = SendOutcome.invalidParameter then [event] else []) }
    else
      finishStep q rest [] [] [event]

@[simp] theorem finishStep_calls (q : taskSendableEvents) (rest : List sendableEvent)
    (c : List RemoteCall) (m : List String) (r : List sendableEvent) :
    (finishStep q rest c m r).calls = c := by
  unfold finishStep; split <;> rfl

@[simp] theorem finishStep_marks (q : taskSendableEvents) (rest : List sendableEvent)
    (c : List RemoteCall) (m : List String) (r : List sendableEvent) :
    (finishStep q rest c m r).marks = m := by
  unfold finishStep; split <;> rfl

@[simp] theorem finishStep_removed (q : taskSendableEvents) (rest : List sendableEvent)
    (c : List RemoteCall) (m : List String) (r : List sendableEvent) :
    (finishStep q rest c m r).removed = r := by
  unfold finishStep; split <;> rfl

@[simp] theorem finishStep_error (q : taskSendableEvents) (rest : List sendableEvent)
    (c : List RemoteCall) (m : List String) (r : List sendableEvent) :
    (finishStep q rest c m r).error = none := by
  unfold finishStep; split <;> rfl

@[simp] theorem finishStep_queue_events (q : taskSendableEvents) (rest : List sendableEvent)
    (c : List RemoteCall) (m : List String) (r : List sendableEvent) :
    (finishStep q rest c m r).queue.events = rest := by
  unfold finishStep; split <;> rfl

@[simp] theorem finishStep_done (q : taskSendableEvents) (rest : List sendableEvent)
    (c : List RemoteCall) (m : List String) (r : List sendableEvent) :
    (finishStep q rest c m r).done = rest.isEmpty := by
  unfold finishStep; split <;> simp_all

@[simp] theorem finishStep_queue_sending (q : taskSendableEvents) (rest : List sendableEvent)
    (c : List RemoteCall) (m : List String) (r : List sendableEvent) :
    (finishStep q rest c m r).queue.sending = (if rest.isEmpty then false else q.sending) := by
  unfold finishStep; split <;> simp_all

/-- A concrete task change used by the concrete evaluations below. -/
def exampleTaskChange : TaskStateChange :=
  { taskARN := "arn-1", status := 4 }

/-! ## Claim C3: redundant events are dropped without a remote call -/

/-- C3: when the event at the front of the queue has all three
should-be-sent predicates false, the drain step removes it from the
queue, issues no remote API call and writes no sent marker. -/
theorem submitFirstEvent_redundant_removed (q : taskSendableEvents) (o : SendOutcome)
    (e : sendableEvent) (rest : List sendableEvent)
    (hfront : q.events = e :: rest)
    (hc : e.containerShouldBeSent = false)
    (ht : e.taskShouldBeSent = false)
    (ha : e.taskAttachmentShouldBeSent = false) :
    (q.submitFirstEvent o).calls = [] ∧
    (q.submitFirstEvent o).marks = [] ∧
    (q.submitFirstEvent o).queue.events = rest ∧
    (q.submitFirstEvent o).error = none := by
  simp [taskSendableEvents.submitFirstEvent, hfront, hc, ht, ha]

/-- An event whose three predicates are all false. -/
def redundantEvent : sendableEvent :=
  { taskChange := exampleTaskChange }

def qRedundant : taskSendableEvents :=
  { events := [redundantEvent], sending := true, taskARN := "arn-1" }

theorem submitFirstEvent_redundant_removed_witness :
    qRedundant.events = [redundantEvent] ∧
    redundantEvent.containerShouldBeSent = false ∧
    redundantEvent.taskShouldBeSent = false ∧
    redundantEvent.taskAttachmentShouldBeSent = false ∧
    ((qRedundant.submitFirstEvent SendOutcome.success).calls = [] ∧
      (qRedundant.submitFirstEvent SendOutcome.success).marks = [] ∧
      (qRedundant.submitFirstEvent SendOutcome.success).queue.events = [] ∧
      (qRedundant.submitFirstEvent SendOutcome.success).error = none) :=
  ⟨rfl, rfl, rfl, rfl,
    submitFirstEvent_redundant_removed qRedundant SendOutcome.success redundantEvent [] rfl rfl
      rfl rfl⟩

/-! ## Claim C5: fixed dispatch order of the three predicates -/

/-- C5: the submission path is selected by evaluating the predicates in
the fixed order container, task, task attachment; the first true one
wins.  In particular an event whose container predicate is true is
routed through the container submission path (the
`SubmitContainerStateChange` client call) even though every event the
handler enqueues is a task change, and regardless of its other
predicates. -/
theorem submitFirstEvent_dispatch_order (q : taskSendableEvents) (o : SendOutcome)
    (e : sendableEvent) (rest : List sendableEvent) (hfront : q.events = e :: rest) :
    (e.containerShouldBeSent = true →
      (q.submitFirstEvent o).calls = [RemoteCall.submitContainerStateChange e "container"]) ∧
    (e.containerShouldBeSent = false → e.taskShouldBeSent = true →
      (q.submitFirstEvent o).calls = [RemoteCall.submitTaskStateChange e "task"]) ∧
    (e.containerShouldBeSent = false → e.taskShouldBeSent = false →
      e.taskAttachmentShouldBeSent = true →
      (q.submitFirstEvent o).calls = [RemoteCall.submitTaskStateChange e "task attachment"]) ∧
    (e.containerShouldBeSent = false → e.taskShouldBeSent = false →
      e.taskAttachmentShouldBeSent = false → (q.submitFirstEvent o).calls = []) := by
  refine ⟨fun h1 => ?_, fun h1 h2 => ?_, fun h1 h2 h3 => ?_, fun h1 h2 h3 => ?_⟩ <;>
    cases o <;> simp [taskSendableEvents.submitFirstEvent, hfront, h1, *]

/-- A task change event whose container predicate is true while its task
predicate is also true: dispatch must pick the container path. -/
def bothPredEvent : sendableEvent :=
  { taskChange := exampleTaskChange, containerShouldBeSent := true, taskShouldBeSent := true }

def qBothPred : taskSendableEvents :=
  { events := [bothPredEvent], sending := true, taskARN := "arn-1" }

theorem submitFirstEvent_dispatch_order_witness :
    qBothPred.events = [bothPredEvent] ∧
    bothPredEvent.containerShouldBeSent = true ∧
    bothPredEvent.taskShouldBeSent = true ∧
    (qBothPred.submitFirstEvent SendOutcome.success).calls =
      [RemoteCall.submitContainerStateChange bothPredEvent "container"] :=
  ⟨rfl, rfl, rfl,
    (submitFirstEvent_dispatch_order qBothPred SendOutcome.success bothPredEvent [] rfl).1 rfl⟩

/-! ## Claim C4: the invalid-parameter error -/

/-- An event routed through the container submission path. -/
def containerPathEvent : sendableEvent :=
  { taskChange := exampleTaskChange, containerShouldBeSent := true }

def qContainerPath : taskSendableEvents :=
  { events := [containerPathEvent], sending := true, taskARN := "arn-1" }

/-- C4 counterexample: on the container submission path the source
(lines 404-408) returns the error without calling
`handleInvalidParamException`, so the front event is NOT removed when
the remote call fails with the typed invalid-parameter error — the
claim's "whichever of the three predicates selected the submission path"
fails at this concrete input. -/
theorem submitFirstEvent_invalid_param_container_keeps_front :
    (qContainerPath.submitFirstEvent SendOutcome.invalidParameter).queue.events =
      [containerPathEvent] ∧
    (qContainerPath.submitFirstEvent SendOutcome.invalidParameter).removed = [] ∧
    (qContainerPath.submitFirstEvent SendOutcome.invalidParameter).calls =
      [RemoteCall.submitContainerStateChange containerPathEvent "container"] :=
  ⟨rfl, rfl, rfl⟩

/-- C4 (amended): when the task or the task-attachment predicate selects
the submission path and the remote call fails with the typed
invalid-parameter error, the front event is removed from its queue with
no sent marker written, and the remaining events are untouched; on the
container path the error is returned without removing the event, which
stays at the front. -/
theorem submitFirstEvent_invalid_param_removes_front (q : taskSendableEvents)
    (e : sendableEvent) (rest : List sendableEvent)
    (hfront : q.events = e :: rest)
    (hc : e.containerShouldBeSent = false)
    (hsel : e.taskShouldBeSent = true ∨
      (e.taskShouldBeSent = false ∧ e.taskAttachmentShouldBeSent = true)) :
    (q.submitFirstEvent SendOutcome.invalidParameter).queue.events = rest ∧
    (q.submitFirstEvent SendOutcome.invalidParameter).marks = [] ∧
    (q.submitFirstEvent SendOutcome.invalidParameter).removed = [e] ∧
    (q.submitFirstEvent SendOutcome.invalidParameter).queue.sending = q.sending ∧
    (q.submitFirstEvent SendOutcome.invalidParameter).done = false := by
  rcases hsel with ht | ⟨ht, ha⟩
  · simp [taskSendableEvents.submitFirstEvent, hfront, hc, ht, handleInvalidParamException]
  · simp [taskSendableEvents.submitFirstEvent, hfront, hc, ht, ha, handleInvalidParamException]

/-- A task-path event for the invalid-parameter witness, with a
second event behind it. -/
def taskPathEvent : sendableEvent :=
  { taskChange := exampleTaskChange, taskShouldBeSent := true }

def qTaskPath : taskSendableEvents :=
  { events := [taskPathEvent, redundantEvent], sending := true, taskARN := "arn-1" }

theorem submitFirstEvent_invalid_param_removes_front_witness :
    qTaskPath.events = [taskPathEvent, redundantEvent] ∧
    taskPathEvent.containerShouldBeSent = false ∧
    taskPathEvent.taskShouldBeSent = true ∧
    ((qTaskPath.submitFirstEvent SendOutcome.invalidParameter).queue.events = [redundantEvent] ∧
      (qTaskPath.submitFirstEvent SendOutcome.invalidParameter).marks = [] ∧
      (qTaskPath.submitFirstEvent SendOutcome.invalidParameter).removed = [taskPathEvent] ∧
      (qTaskPath.submitFirstEvent SendOutcome.invalidParameter).queue.sending =
        qTaskPath.sending ∧
      (qTaskPath.submitFirstEvent SendOutcome.invalidParameter).done = false) :=
  ⟨rfl, rfl, rfl,
    submitFirstEvent_invalid_param_removes_front qTaskPath taskPathEvent [redundantEvent] rfl rfl
      (Or.inl rfl)⟩

/-! ## Claim C6: `sending`, `done` and the empty queue -/

/-- A queue holding a single task-path event. -/
def qSingleTaskPath : taskSendableEvents :=
  { events := [taskPathEvent], sending := true, taskARN := "arn-1" }

/-- C6 counterexample: with a single task-path event at the front and an
invalid-parameter outcome, the step empties the queue (the offending
event is removed) yet returns `done = false` — so "done=true exactly
when the list is empty on entry or becomes empty after the step" fails
at this concrete input. -/
theorem submitFirstEvent_done_false_on_emptied_queue :
    qSingleTaskPath.events ≠ [] ∧
    (qSingleTaskPath.submitFirstEvent SendOutcome.invalidParameter).queue.events = [] ∧
    (qSingleTaskPath.submitFirstEvent SendOutcome.invalidParameter).done = false := by
  refine ⟨?_, rfl, rfl⟩
  simp [qSingleTaskPath]

/-- C6 (amended): the drain step sets `sending` to false only when the
event list is empty (so whenever `sending` transitions from true to
false the queue is empty), and it returns `done = true` exactly when the
list was empty on entry or the step finished without error with the list
empty afterwards.  (The invalid-parameter error path can empty the list
while still returning `done = false` together with the error; the
worker's next attempt then observes the empty list.) -/
theorem submitFirstEvent_sending_done_characterization (q : taskSendableEvents)
    (o : SendOutcome) :
    (q.sending = true → (q.submitFirstEvent o).queue.sending = false →
      (q.submitFirstEvent o).queue.events = []) ∧
    ((q.submitFirstEvent o).done = true ↔
      (q.events = [] ∨
        ((q.submitFirstEvent o).error = none ∧ (q.submitFirstEvent o).queue.events = []))) := by
  obtain ⟨evs, snd, ca, arn⟩ := q
  cases evs with
  | nil => cases o <;> simp [taskSendableEvents.submitFirstEvent]
  | cons e rest =>
    by_cases h1 : e.containerShouldBeSent = true <;> by_cases h2 : e.taskShouldBeSent = true <;>
      by_cases h3 : e.taskAttachmentShouldBeSent = true <;> cases o <;> cases rest <;>
        simp_all [taskSendableEvents.submitFirstEvent, handleInvalidParamException]

theorem submitFirstEvent_sending_done_characterization_witness :
    qRedundant.sending = true ∧
    (qRedundant.submitFirstEvent SendOutcome.success).queue.sending = false ∧
    ((qRedundant.submitFirstEvent SendOutcome.success).queue.events = [] ∧
      ((qRedundant.submitFirstEvent SendOutcome.success).done = true ↔
        (qRedundant.events = [] ∨
          ((qRedundant.submitFirstEvent SendOutcome.success).error = none ∧
            (qRedundant.submitFirstEvent SendOutcome.success).queue.events = [])))) :=
  ⟨rfl, rfl,
    (submitFirstEvent_sending_done_characterization qRedundant SendOutcome.success).1 rfl rfl,
    (submitFirstEvent_sending_done_characterization qRedundant SendOutcome.success).2⟩

/-! ## Per-ARN worker system (claims C2 and C7)

One per-task queue together with its Submitter Worker, instrumented
with the history needed to state ordering: `arrived` is every event ever
passed to `sendChange` in order, `processed` every event removed from
the queue in order, `submitted` every event whose remote submission
succeeded, in order.  `workers` counts the live Submitter Worker
goroutines for this ARN: `sendChange` spawns one exactly when it signals
(lines 370-374), and a worker exits when `submitFirstEvent` reports done
(lines 329-346); the exit is folded into its final drain step. -/

theorem submitFirstEvent_removed_append (q : taskSendableEvents) (o : SendOutcome) :
    (q.submitFirstEvent o).removed ++ (q.submitFirstEvent o).queue.events = q.events := by
  obtain ⟨evs, snd, ca, arn⟩ := q
  cases evs with
  | nil => cases o <;> simp [taskSendableEvents.submitFirstEvent]
  | cons e rest =>
    by_cases h1 : e.containerShouldBeSent = true <;> by_cases h2 : e.taskShouldBeSent = true <;>
      by_cases h3 : e.taskAttachmentShouldBeSent = true <;> cases o <;>
        simp_all [taskSendableEvents.submitFirstEvent, handleInvalidParamException]

theorem submitFirstEvent_removed_front (q : taskSendableEvents) (o : SendOutcome) :
    (q.submitFirstEvent o).removed = [] ∨
    (q.submitFirstEvent o).removed = q.events.take 1 := by
  obtain ⟨evs, snd, ca, arn⟩ := q
  cases evs with
  | nil => cases o <;> simp [taskSendableEvents.submitFirstEvent]
  | cons e rest =>
    by_cases h1 : e.containerShouldBeSent = true <;> by_cases h2 : e.taskShouldBeSent = true <;>
      by_cases h3 : e.taskAttachmentShouldBeSent = true <;> cases o <;>
        simp_all [taskSendableEvents.submitFirstEvent, handleInvalidParamException]

theorem submitFirstEvent_sending_eq (q : taskSendableEvents) (o : SendOutcome) :
    (q.submitFirstEvent o).queue.sending = (q.sending && !(q.submitFirstEvent o).done) := by
  obtain ⟨evs, snd, ca, arn⟩ := q
  cases evs with
  | nil => cases o <;> simp [taskSendableEvents.submitFirstEvent]
  | cons e rest =>
    by_cases h1 : e.containerShouldBeSent = true <;> by_cases h2 : e.taskShouldBeSent = true <;>
      by_cases h3 : e.taskAttachmentShouldBeSent = true <;> cases o <;> cases rest <;>
        simp_all [taskSendableEvents.submitFirstEvent, handleInvalidParamException]

structure WorkerSystem where
  queue : taskSendableEvents
  workers : Nat
  arrived : List sendableEvent
  processed : List sendableEvent
  submitted : List sendableEvent
  deriving DecidableEq, Repr

/-- An event arrives for the ARN: `sendChange` under the queue mutex,
spawning a Submitter Worker exactly when it signals. -/
def enqueueStep (s : WorkerSystem) (e : sendableEvent) : WorkerSystem :=
  { queue := (s.queue.sendChange e).1,
    workers := s.workers + (if (s.queue.sendChange e).2 then 1 else 0),
    arrived := s.arrived ++ [e],
    processed := s.processed,
    submitted := s.submitted }

/-- The worker performs one `submitFirstEvent` attempt with remote
outcome `o`; when the step reports done the worker exits. -/
def drainStep (s : WorkerSystem) (o : SendOutcome) : WorkerSystem :=
  { queue := (s.queue.submitFirstEvent o).queue,
    workers := (if (s.queue.submitFirstEvent o).done then s.workers - 1 else s.workers),
    arrived := s.arrived,
    processed := s.processed ++ (s.queue.submitFirstEvent o).removed,
    submitted := (s.submitted ++
      (if (s.queue.submitFirstEvent o).marks.isEmpty then []
       else (s.queue.submitFirstEvent o).removed)) }

/-- Interleaving of producers and the (sole) worker for one ARN; a drain
step needs a live worker. -/
inductive WStep : WorkerSystem → WorkerSystem → Prop
  | enqueue (s : WorkerSystem) (e : sendableEvent) : WStep s (enqueueStep s e)
  | drain (s : WorkerSystem) (o : SendOutcome) (hw : 0 < s.workers) : WStep s (drainStep s o)

def initWorkerSystem (taskARN : String) : WorkerSystem :=
  { queue := newTaskSendableEvents taskARN, workers := 0,
    arrived := [], processed := [], submitted := [] }

def WReach (taskARN : String) (s : WorkerSystem) : Prop :=
  Relation.ReflTransGen WStep (initWorkerSystem taskARN) s

def WInv (s : WorkerSystem) : Prop :=
  s.arrived = s.processed ++ s.queue.events ∧
  List.Sublist s.submitted s.processed ∧
  s.workers = (if s.queue.sending then 1 else 0)

theorem WInv_init (taskARN : String) : WInv (initWorkerSystem taskARN) := by
  simp [WInv, initWorkerSystem, newTaskSendableEvents]

theorem WInv_step (s s' : WorkerSystem) (hs : WStep s s') (hi : WInv s) : WInv s' := by
  obtain ⟨h1, h2, h3⟩ := hi
  cases hs with
  | enqueue e =>
    refine ⟨?_, ?_, ?_⟩
    · simp [enqueueStep, taskSendableEvents.sendChange, h1]
    · simpa [enqueueStep] using h2
    · simp only [enqueueStep, taskSendableEvents.sendChange]
      rw [h3]
      by_cases hq : s.queue.sending = true <;> simp [hq]
  | drain o hw =>
    have hLA := submitFirstEvent_removed_append s.queue o
    have hLB := submitFirstEvent_sending_eq s.queue o
    have hsend : s.queue.sending = true := by
      by_contra hc
      rw [Bool.not_eq_true] at hc
      rw [hc] at h3
      simp at h3
      omega
    have hw1 : s.workers = 1 := by
      rw [hsend] at h3
      simpa using h3
    refine ⟨?_, ?_, ?_⟩
    · simp only [drainStep]
      rw [h1, ← hLA, List.append_assoc]
    · simp only [drainStep]
      refine List.Sublist.append h2 ?_
      split
      · exact List.nil_sublist _
      · exact List.Sublist.refl _
    · simp only [drainStep, hLB, hsend, hw1]
      by_cases hdone : (s.queue.submitFirstEvent o).done = true <;> simp [hdone]

theorem WInv_reach (taskARN : String) (s : WorkerSystem) (h : WReach taskARN s) : WInv s := by
  induction h with
  | refl => exact WInv_init taskARN
  | tail hab hbc ih => exact WInv_step _ _ hbc ih

/-- C2: for one task ARN, `sendChange` appends at the back of the FIFO,
a drain step removes at most the front element, and along every
reachable execution the sequence of successfully submitted events is a
sublist of the arrival sequence — successful remote submissions happen
in insertion order. -/
theorem per_task_fifo_order (taskARN : String) (s : WorkerSystem) (h : WReach taskARN s) :
    List.Sublist s.submitted s.arrived ∧
    (∀ (q : taskSendableEvents) (e : sendableEvent),
      (q.sendChange e).1.events = q.events ++ [e]) ∧
    (∀ (q : taskSendableEvents) (o : SendOutcome),
      (q.submitFirstEvent o).removed ++ (q.submitFirstEvent o).queue.events = q.events ∧
      ((q.submitFirstEvent o).removed = [] ∨
        (q.submitFirstEvent o).removed = q.events.take 1)) := by
  obtain ⟨h1, h2, h3⟩ := WInv_reach taskARN s h
  refine ⟨?_, fun q e => rfl, fun q o =>
    ⟨submitFirstEvent_removed_append q o, submitFirstEvent_removed_front q o⟩⟩
  have hpa : List.Sublist s.processed s.arrived := by
    rw [h1]
    exact List.sublist_append_left _ _
  exact h2.trans hpa

def wsExample : WorkerSystem :=
  drainStep (enqueueStep (initWorkerSystem "arn-1") taskPathEvent) SendOutcome.success

theorem per_task_fifo_order_witness :
    WReach "arn-1" wsExample ∧ List.Sublist wsExample.submitted wsExample.arrived := by
  have hreach : WReach "arn-1" wsExample :=
    Relation.ReflTransGen.tail
      (Relation.ReflTransGen.single (WStep.enqueue (initWorkerSystem "arn-1") taskPathEvent))
      (WStep.drain (enqueueStep (initWorkerSystem "arn-1") taskPathEvent) SendOutcome.success
        (by decide))
  exact ⟨hreach, (per_task_fifo_order "arn-1" wsExample hreach).1⟩

/-- C7: `sendChange` appends the event at the back of the per-task
queue, leaves `sending` true, and signals a spawn exactly when `sending`
was false at that moment, all inside one critical section; consequently,
along every reachable execution at most one Submitter Worker is live for
the ARN, and one is live exactly when `sending` is set. -/
theorem sendChange_single_worker (taskARN : String) (s : WorkerSystem)
    (h : WReach taskARN s) :
    (∀ (q : taskSendableEvents) (e : sendableEvent),
      (q.sendChange e).1.events = q.events ++ [e] ∧
      (q.sendChange e).1.sending = true ∧
      ((q.sendChange e).2 = true ↔ q.sending = false)) ∧
    s.workers ≤ 1 ∧
    s.workers = (if s.queue.sending then 1 else 0) := by
  obtain ⟨h1, h2, h3⟩ := WInv_reach taskARN s h
  refine ⟨fun q e => ⟨rfl, rfl, ?_⟩, ?_, h3⟩
  · simp [taskSendableEvents.sendChange]
  · rw [h3]
    split <;> omega

theorem sendChange_single_worker_witness :
    WReach "arn-1" (enqueueStep (initWorkerSystem "arn-1") taskPathEvent) ∧
    (enqueueStep (initWorkerSystem "arn-1") taskPathEvent).workers ≤ 1 := by
  have hreach : WReach "arn-1" (enqueueStep (initWorkerSystem "arn-1") taskPathEvent) :=
    Relation.ReflTransGen.single (WStep.enqueue (initWorkerSystem "arn-1") taskPathEvent)
  exact ⟨hreach, (sendChange_single_worker "arn-1" _ hreach).2.1⟩

/-! ## Permit pool (claim C9)

`utils.Semaphore` is not under `src/`; per spec §4.1 it is a counting
semaphore of fixed capacity, created with `concurrentEventCalls` permits
(line 112).  Each drain attempt brackets its `submitFirstEvent` call —
and hence the at most one remote call it makes — between `Wait` and
`Post` (lines 338-343), so the number of attempts in flight, and with it
the number of remote calls in flight, is the number of permits taken. -/

/-- `concurrentEventCalls` (line 40): the permit pool capacity. -/
def concurrentEventCalls : Nat := 10

/-- Modelled from the spec: the counting semaphore's state — free
permits and holders currently inside a drain attempt. -/
structure SemaphoreState where
  available : Nat
  inFlight : Nat
  deriving DecidableEq, Repr

def initSemaphore : SemaphoreState :=
  { available := concurrentEventCalls, inFlight := 0 }

/-- Modelled from the spec: `Wait` blocks until a permit is free and
takes it; `Post` returns it. -/
inductive SemStep : SemaphoreState → SemaphoreState → Prop
  | wait (s : SemaphoreState) (h : 0 < s.available) :
      SemStep s { available := s.available - 1, inFlight := s.inFlight + 1 }
  | post (s : SemaphoreState) (h : 0 < s.inFlight) :
      SemStep s { available := s.available + 1, inFlight := s.inFlight - 1 }

def SemReach (s : SemaphoreState) : Prop :=
  Relation.ReflTransGen SemStep initSemaphore s

theorem sem_total_reach (s : SemaphoreState) (h : SemReach s) :
    s.available + s.inFlight = concurrentEventCalls := by
  induction h with
  | refl => rfl
  | tail hab hbc ih =>
    cases hbc with
    | wait ht => simp only [] ; omega
    | post ht => simp only [] ; omega

/-- C9: the number of drain attempts — and hence remote API submissions
— concurrently in flight never exceeds the permit pool capacity
`concurrentEventCalls = 10`: every reachable semaphore state has at most
10 holders. -/
theorem inflight_at_most_capacity (s : SemaphoreState) (h : SemReach s) :
    s.inFlight ≤ concurrentEventCalls ∧ concurrentEventCalls = 10 := by
  have := sem_total_reach s h
  exact ⟨by omega, rfl⟩

theorem inflight_at_most_capacity_witness :
    SemReach { available := 9, inFlight := 1 } ∧
    ({ available := 9, inFlight := 1 } : SemaphoreState).inFlight ≤ concurrentEventCalls := by
  have hreach : SemReach { available := 9, inFlight := 1 } :=
    Relation.ReflTransGen.single (SemStep.wait initSemaphore (by decide))
  exact ⟨hreach, (inflight_at_most_capacity _ hreach).1⟩

/-! ## Drain ticker synthesis (`taskStateChangesToSend`, claim C8) -/

/-- The synthetic task state change the ticker constructs for a retained
ARN (lines 221-226 and 245-250): the ARN, the task's current known
status, the task reference, and populated timestamps. -/
def drainTaskEvent (taskARN : String) (task : Task) : TaskStateChange :=
  TaskStateChange.setTaskTimestamps
    { taskARN := taskARN, status := task.knownStatus, task := some task }

/-- First loop of `taskStateChangesToSend` (lines 204-229): iterate the
container batch buffer keys; skip every ARN the task-engine state does
not know and every ARN whose known status is at or beyond `TaskStopped`;
for each retained ARN store the synthetic event in the `events` map. -/
def containerPass (state : String → Option Task)
    (buf : List (String × List ContainerStateChange))
    (events : List (String × TaskStateChange)) : List (String × TaskStateChange) :=
  match buf with
  | [] => events
  | (taskARN, _) :: rest =>
    match state taskARN with
    | some task =>
      if TaskStopped ≤ task.knownStatus then containerPass state rest events
      else containerPass state rest (mapPut events taskARN (drainTaskEvent taskARN task))
    | none => containerPass state rest events

/-- Second loop (lines 231-254): the same over the managed-agent buffer
keys, except that an ARN already present in `events` is skipped first,
so an entry produced by the container pass is never overwritten. -/
def managedAgentPass (state : String → Option Task)
    (buf : List (String × List ManagedAgentStateChange))
    (events : List (String × TaskStateChange)) : List (String × TaskStateChange) :=
  match buf with
  | [] => events
  | (taskARN, _) :: rest =>
    if (mapGet events taskARN).isSome then managedAgentPass state rest events
    else
      match state taskARN with
      | some task =>
        if TaskStopped ≤ task.knownStatus then managedAgentPass state rest events
        else managedAgentPass state rest (mapPut events taskARN (drainTaskEvent taskARN task))
      | none => managedAgentPass state rest events

/-- `taskStateChangesToSend` (lines 199-260), run under the registry
read lock: the values of the `events` map after both passes.  Go map
iteration order is unspecified; the embedding iterates in buffer order,
and every property proved about the result is order independent. -/
def taskStateChangesToSend (state : String → Option Task) (h : TaskHandler) :
    List TaskStateChange :=
  (managedAgentPass state h.tasksToManagedAgentStates
    (containerPass state h.tasksToContainerStates [])).map Prod.snd

/-- The event the ticker synthesizes for an ARN when it is retained:
the task is known and not at or beyond `TaskStopped`. -/
def tickerCandidate (state : String → Option Task) (taskARN : String) :
    Option TaskStateChange :=
  match state taskARN with
  | some task =>
    if TaskStopped ≤ task.knownStatus then none else some (drainTaskEvent taskARN task)
  | none => none

theorem tickerCandidate_some (state : String → Option Task) (taskARN : String)
    (ev : TaskStateChange) :
    tickerCandidate state taskARN = some ev ↔
      ∃ task, state taskARN = some task ∧ task.knownStatus < TaskStopped ∧
        ev = drainTaskEvent taskARN task := by
  cases hs : state taskARN with
  | none => simp [tickerCandidate, hs]
  | some task =>
    by_cases hstop : TaskStopped ≤ task.knownStatus
    · simp only [tickerCandidate, hs, if_pos hstop]
      constructor
      · intro h0
        exact Option.noConfusion h0
      · rintro ⟨t, ht, hlt, hev⟩
        injection ht with ht2
        subst ht2
        exact absurd hlt (not_lt.mpr hstop)
    · simp only [tickerCandidate, hs, if_neg hstop]
      constructor
      · intro h0
        injection h0 with h0
        exact ⟨task, rfl, not_le.mp hstop, h0.symm⟩
      · rintro ⟨t, ht, hlt, hev⟩
        injection ht with ht2
        subst ht2
        rw [hev]

theorem mem_mapPut {α : Type} (m : List (String × α)) (k : String) (v : α) (p : String × α)
    (hp : p ∈ mapPut m k v) : p = (k, v) ∨ p ∈ m := by
  induction m with
  | nil =>
    simp only [mapPut] at hp
    rcases List.mem_cons.mp hp with h | h
    · exact Or.inl h
    · exact absurd h (List.not_mem_nil _)
  | cons q rest ih =>
    obtain ⟨k0, v0⟩ := q
    simp only [mapPut] at hp
    by_cases h0 : k0 = k
    · rw [if_pos h0] at hp
      rcases List.mem_cons.mp hp with h | h
      · exact Or.inl h
      · exact Or.inr (List.mem_cons_of_mem _ h)
    · rw [if_neg h0] at hp
      rcases List.mem_cons.mp hp with h | h
      · exact Or.inr (h ▸ List.mem_cons_self _ _)
      · rcases ih h with h1 | h1
        · exact Or.inl h1
        · exact Or.inr (List.mem_cons_of_mem _ h1)

theorem mapKeys_mapPut {α : Type} (m : List (String × α)) (k : String) (v : α) :
    mapKeys (mapPut m k v) =
      (if k ∈ mapKeys m then mapKeys m else mapKeys m ++ [k]) := by
  induction m with
  | nil => simp [mapPut, mapKeys]
  | cons q rest ih =>
    obtain ⟨k0, v0⟩ := q
    by_cases h0 : k0 = k
    · simp [mapPut, mapKeys, h0]
    · have hne : ¬k = k0 := fun h => h0 h.symm
      by_cases hm : k ∈ mapKeys rest <;>
        simp_all [mapPut, mapKeys, h0, hne, ih]

theorem nodup_mapKeys_mapPut {α : Type} (m : List (String × α)) (k : String) (v : α)
    (h : (mapKeys m).Nodup) : (mapKeys (mapPut m k v)).Nodup := by
  rw [mapKeys_mapPut]
  by_cases hm : k ∈ mapKeys m
  · simpa [hm] using h
  · rw [if_neg hm]
    refine List.Nodup.append h (List.nodup_singleton k) ?_
    intro a ha hb
    rw [List.mem_singleton] at hb
    subst hb
    exact hm ha

theorem mapGet_eq_of_mem_nodup {α : Type} (m : List (String × α)) (k : String) (v : α)
    (hm : (k, v) ∈ m) (hnd : (mapKeys m).Nodup) : mapGet m k = some v := by
  induction m with
  | nil => exact absurd hm (List.not_mem_nil _)
  | cons q rest ih =>
    obtain ⟨k0, v0⟩ := q
    have hnd' : k0 ∉ mapKeys rest ∧ (mapKeys rest).Nodup := by
      simpa [mapKeys] using hnd
    rcases List.mem_cons.mp hm with h | h
    · obtain ⟨hk, hv⟩ := Prod.mk.injEq .. ▸ h
      simp [mapGet, hk.symm, hv.symm]
    · have hk : k ∈ mapKeys rest := List.mem_map.mpr ⟨(k, v), h, rfl⟩
      have hne : k0 ≠ k := fun he => hnd'.1 (he ▸ hk)
      simp [mapGet, hne, ih h hnd'.2]

theorem mapGet_containerPass_notmem (state : String → Option Task)
    (buf : List (String × List ContainerStateChange))
    (events : List (String × TaskStateChange)) (arn : String)
    (h : arn ∉ mapKeys buf) :
    mapGet (containerPass state buf events) arn = mapGet events arn := by
  induction buf generalizing events with
  | nil => rfl
  | cons q rest ih =>
    obtain ⟨k, v⟩ := q
    simp only [mapKeys, List.map_cons, List.mem_cons, not_or] at h
    obtain ⟨h1, h2⟩ := h
    cases hs : state k with
    | none =>
      simp only [containerPass, hs]
      exact ih events h2
    | some task =>
      simp only [containerPass, hs]
      by_cases hstop : TaskStopped ≤ task.knownStatus
      · rw [if_pos hstop]
        exact ih events h2
      · rw [if_neg hstop]
        rw [ih (mapPut events k (drainTaskEvent k task)) h2, mapGet_mapPut]
        rw [if_neg (fun hh : k = arn => h1 hh.symm)]

theorem mapGet_containerPass_candidate_none (state : String → Option Task)
    (buf : List (String × List ContainerStateChange))
    (events : List (String × TaskStateChange)) (arn : String)
    (h : tickerCandidate state arn = none) :
    mapGet (containerPass state buf events) arn = mapGet events arn := by
  induction buf generalizing events with
  | nil => rfl
  | cons q rest ih =>
    obtain ⟨k, v⟩ := q
    cases hs : state k with
    | none =>
      simp only [containerPass, hs]
      exact ih events
    | some task =>
      simp only [containerPass, hs]
      by_cases hstop : TaskStopped ≤ task.knownStatus
      · rw [if_pos hstop]
        exact ih events
      · rw [if_neg hstop]
        rw [ih (mapPut events k (drainTaskEvent k task)), mapGet_mapPut]
        by_cases hk : k = arn
        · exfalso
          subst hk
          simp only [tickerCandidate, hs, if_neg hstop] at h
          exact Option.noConfusion h
        · rw [if_neg hk]

theorem mapGet_containerPass_mem (state : String → Option Task)
    (buf : List (String × List ContainerStateChange))
    (events : List (String × TaskStateChange)) (arn : String) (ev : TaskStateChange)
    (hmem : arn ∈ mapKeys buf) (hc : tickerCandidate state arn = some ev) :
    mapGet (containerPass state buf events) arn = some ev := by
  induction buf generalizing events with
  | nil => exact absurd hmem (List.not_mem_nil _)
  | cons q rest ih =>
    obtain ⟨k, v⟩ := q
    by_cases hk : k = arn
    · subst hk
      rcases (tickerCandidate_some state k ev).mp hc with ⟨task, hs, hlt, hev⟩
      simp only [containerPass, hs]
      rw [if_neg (not_le.mpr hlt)]
      by_cases hm : k ∈ mapKeys rest
      · exact ih (mapPut events k (drainTaskEvent k task)) hm
      · rw [mapGet_containerPass_notmem state rest _ k hm, mapGet_mapPut, if_pos rfl, hev]
    · have hm : arn ∈ mapKeys rest := by
        simp only [mapKeys, List.map_cons, List.mem_cons] at hmem
        rcases hmem with he | he
        · exact absurd he.symm hk
        · exact he
      cases hs : state k with
      | none =>
        simp only [containerPass, hs]
        exact ih events hm
      | some task =>
        simp only [containerPass, hs]
        by_cases hstop : TaskStopped ≤ task.knownStatus
        · rw [if_pos hstop]
          exact ih events hm
        · rw [if_neg hstop]
          exact ih (mapPut events k (drainTaskEvent k task)) hm

theorem mapGet_managedAgentPass_pres (state : String → Option Task)
    (buf : List (String × List ManagedAgentStateChange))
    (events : List (String × TaskStateChange)) (arn : String) (ev : TaskStateChange)
    (h : mapGet events arn = some ev) :
    mapGet (managedAgentPass state buf events) arn = some ev := by
  induction buf generalizing events with
  | nil => exact h
  | cons q rest ih =>
    obtain ⟨k, v⟩ := q
    have hk : (mapGet events k).isSome = true ∨ ¬k = arn := by
      by_cases hke : k = arn
      · subst hke
        rw [h]
        exact Or.inl rfl
      · exact Or.inr hke
    cases hs : state k with
    | none =>
      simp only [managedAgentPass, hs]
      by_cases hg : (mapGet events k).isSome = true
      · rw [if_pos hg]
        exact ih events h
      · rw [if_neg hg]
        exact ih events h
    | some task =>
      simp only [managedAgentPass, hs]
      by_cases hg : (mapGet events k).isSome = true
      · rw [if_pos hg]
        exact ih events h
      · rw [if_neg hg]
        have hk2 : ¬k = arn := by
          rcases hk with hk | hk
          · exact absurd hk hg
          · exact hk
        by_cases hstop : TaskStopped ≤ task.knownStatus
        · rw [if_pos hstop]
          exact ih events h
        · rw [if_neg hstop]
          refine ih (mapPut events k (drainTaskEvent k task)) ?_
          rw [mapGet_mapPut, if_neg hk2, h]

theorem mapGet_managedAgentPass_notmem (state : String → Option Task)
    (buf : List (String × List ManagedAgentStateChange))
    (events : List (String × TaskStateChange)) (arn : String)
    (h : arn ∉ mapKeys buf) :
    mapGet (managedAgentPass state buf events) arn = mapGet events arn := by
  induction buf generalizing events with
  | nil => rfl
  | cons q rest ih =>
    obtain ⟨k, v⟩ := q
    simp only [mapKeys, List.map_cons, List.mem_cons, not_or] at h
    obtain ⟨h1, h2⟩ := h
    cases hs : state k with
    | none =>
      simp only [managedAgentPass, hs]
      by_cases hg : (mapGet events k).isSome = true
      · rw [if_pos hg]
        exact ih events h2
      · rw [if_neg hg]
        exact ih events h2
    | some task =>
      simp only [managedAgentPass, hs]
      by_cases hg : (mapGet events k).isSome = true
      · rw [if_pos hg]
        exact ih events h2
      · rw [if_neg hg]
        by_cases hstop : TaskStopped ≤ task.knownStatus
        · rw [if_pos hstop]
          exact ih events h2
        · rw [if_neg hstop]
          rw [ih (mapPut events k (drainTaskEvent k task)) h2, mapGet_mapPut]
          rw [if_neg (fun hh : k = arn => h1 hh.symm)]

theorem mapGet_managedAgentPass_candidate_none (state : String → Option Task)
    (buf : List (String × List ManagedAgentStateChange))
    (events : List (String × TaskStateChange)) (arn : String)
    (h : tickerCandidate state arn = none) :
    mapGet (managedAgentPass state buf events) arn = mapGet events arn := by
  induction buf generalizing events with
  | nil => rfl
  | cons q rest ih =>
    obtain ⟨k, v⟩ := q
    cases hs : state k with
    | none =>
      simp only [managedAgentPass, hs]
      by_cases hg : (mapGet events k).isSome = true
      · rw [if_pos hg]
        exact ih events
      · rw [if_neg hg]
        exact ih events
    | some task =>
      simp only [managedAgentPass, hs]
      by_cases hg : (mapGet events k).isSome = true
      · rw [if_pos hg]
        exact ih events
      · rw [if_neg hg]
        by_cases hstop : TaskStopped ≤ task.knownStatus
        · rw [if_pos hstop]
          exact ih events
        · rw [if_neg hstop]
          rw [ih (mapPut events k (drainTaskEvent k task)), mapGet_mapPut]
          by_cases hk : k = arn
          · exfalso
            subst hk
            simp only [tickerCandidate, hs, if_neg hstop] at h
            exact Option.noConfusion h
          · rw [if_neg hk]

theorem mapGet_managedAgentPass_mem (state : String → Option Task)
    (buf : List (String × List ManagedAgentStateChange))
    (events : List (String × TaskStateChange)) (arn : String) (ev : TaskStateChange)
    (hmem : arn ∈ mapKeys buf) (hc : tickerCandidate state arn = some ev)
    (hnone : mapGet events arn = none) :
    mapGet (managedAgentPass state buf events) arn = some ev := by
  induction buf generalizing events with
  | nil => exact absurd hmem (List.not_mem_nil _)
  | cons q rest ih =>
    obtain ⟨k, v⟩ := q
    by_cases hk : k = arn
    · subst hk
      rcases (tickerCandidate_some state k ev).mp hc with ⟨task, hs, hlt, hev⟩
      simp only [managedAgentPass, hs]
      rw [if_neg (by rw [hnone]; simp)]
      rw [if_neg (not_le.mpr hlt)]
      refine mapGet_managedAgentPass_pres state rest _ k ev ?_
      rw [mapGet_mapPut, if_pos rfl, hev]
    · have hm : arn ∈ mapKeys rest := by
        simp only [mapKeys, List.map_cons, List.mem_cons] at hmem
        rcases hmem with he | he
        · exact absurd he.symm hk
        · exact he
      cases hs : state k with
      | none =>
        simp only [managedAgentPass, hs]
        by_cases hg : (mapGet events k).isSome = true
        · rw [if_pos hg]
          exact ih events hm hnone
        · rw [if_neg hg]
          exact ih events hm hnone
      | some task =>
        simp only [managedAgentPass, hs]
        by_cases hg : (mapGet events k).isSome = true
        · rw [if_pos hg]
          exact ih events hm hnone
        · rw [if_neg hg]
          by_cases hstop : TaskStopped ≤ task.knownStatus
          · rw [if_pos hstop]
            exact ih events hm hnone
          · rw [if_neg hstop]
            refine ih (mapPut events k (drainTaskEvent k task)) hm ?_
            rw [mapGet_mapPut, if_neg hk, hnone]

theorem mapGet_containerPass_inv (state : String → Option Task)
    (buf : List (String × List ContainerStateChange)) (arn : String) (ev : TaskStateChange)
    (h : mapGet (containerPass state buf []) arn = some ev) :
    arn ∈ mapKeys buf ∧ tickerCandidate state arn = some ev := by
  by_cases hmem : arn ∈ mapKeys buf
  · cases hc : tickerCandidate state arn with
    | none =>
      rw [mapGet_containerPass_candidate_none state buf [] arn hc] at h
      simp [mapGet] at h
    | some ev0 =>
      rw [mapGet_containerPass_mem state buf [] arn ev0 hmem hc] at h
      injection h with h2
      exact ⟨hmem, congrArg some h2⟩
  · rw [mapGet_containerPass_notmem state buf [] arn hmem] at h
    simp [mapGet] at h

theorem mapGet_pipeline_inv (state : String → Option Task)
    (bufC : List (String × List ContainerStateChange))
    (bufM : List (String × List ManagedAgentStateChange)) (arn : String) (ev : TaskStateChange)
    (h : mapGet (managedAgentPass state bufM (containerPass state bufC [])) arn = some ev) :
    tickerCandidate state arn = some ev ∧ (arn ∈ mapKeys bufC ∨ arn ∈ mapKeys bufM) := by
  cases hE1 : mapGet (containerPass state bufC []) arn with
  | some ev0 =>
    have hres := mapGet_managedAgentPass_pres state bufM _ arn ev0 hE1
    rw [h] at hres
    injection hres with h2
    obtain ⟨hmem, hc⟩ := mapGet_containerPass_inv state bufC arn ev0 hE1
    exact ⟨by rw [hc, h2], Or.inl hmem⟩
  | none =>
    by_cases hmem : arn ∈ mapKeys bufM
    · cases hc : tickerCandidate state arn with
      | none =>
        rw [mapGet_managedAgentPass_candidate_none state bufM _ arn hc, hE1] at h
        exact Option.noConfusion h
      | some ev0 =>
        have hres := mapGet_managedAgentPass_mem state bufM _ arn ev0 hmem hc hE1
        rw [h] at hres
        injection hres with h2
        exact ⟨congrArg some h2.symm, Or.inr hmem⟩
    · rw [mapGet_managedAgentPass_notmem state bufM _ arn hmem, hE1] at h
      exact Option.noConfusion h

/-- Every value stored in the ticker's `events` map is the synthetic
event of its own key. -/
def valuesKeyed (l : List (String × TaskStateChange)) : Prop :=
  ∀ p ∈ l, (Prod.snd p).taskARN = Prod.fst p

theorem valuesKeyed_mapPut (l : List (String × TaskStateChange)) (k : String)
    (v : TaskStateChange) (hl : valuesKeyed l) (hv : v.taskARN = k) :
    valuesKeyed (mapPut l k v) := by
  intro p hp
  rcases mem_mapPut l k v p hp with h | h
  · rw [h]
    exact hv
  · exact hl p h

theorem valuesKeyed_containerPass (state : String → Option Task)
    (buf : List (String × List ContainerStateChange))
    (events : List (String × TaskStateChange)) (h : valuesKeyed events) :
    valuesKeyed (containerPass state buf events) := by
  induction buf generalizing events with
  | nil => exact h
  | cons q rest ih =>
    obtain ⟨k, v⟩ := q
    cases hs : state k with
    | none =>
      simp only [containerPass, hs]
      exact ih events h
    | some task =>
      simp only [containerPass, hs]
      by_cases hstop : TaskStopped ≤ task.knownStatus
      · rw [if_pos hstop]
        exact ih events h
      · rw [if_neg hstop]
        exact ih _ (valuesKeyed_mapPut events k _ h rfl)

theorem valuesKeyed_managedAgentPass (state : String → Option Task)
    (buf : List (String × List ManagedAgentStateChange))
    (events : List (String × TaskStateChange)) (h : valuesKeyed events) :
    valuesKeyed (managedAgentPass state buf events) := by
  induction buf generalizing events with
  | nil => exact h
  | cons q rest ih =>
    obtain ⟨k, v⟩ := q
    cases hs : state k with
    | none =>
      simp only [managedAgentPass, hs]
      by_cases hg : (mapGet events k).isSome = true
      · rw [if_pos hg]
        exact ih events h
      · rw [if_neg hg]
        exact ih events h
    | some task =>
      simp only [managedAgentPass, hs]
      by_cases hg : (mapGet events k).isSome = true
      · rw [if_pos hg]
        exact ih events h
      · rw [if_neg hg]
        by_cases hstop : TaskStopped ≤ task.knownStatus
        · rw [if_pos hstop]
          exact ih events h
        · rw [if_neg hstop]
          exact ih _ (valuesKeyed_mapPut events k _ h rfl)

theorem nodup_containerPass (state : String → Option Task)
    (buf : List (String × List ContainerStateChange))
    (events : List (String × TaskStateChange)) (h : (mapKeys events).Nodup) :
    (mapKeys (containerPass state buf events)).Nodup := by
  induction buf generalizing events with
  | nil => exact h
  | cons q rest ih =>
    obtain ⟨k, v⟩ := q
    cases hs : state k with
    | none =>
      simp only [containerPass, hs]
      exact ih events h
    | some task =>
      simp only [containerPass, hs]
      by_cases hstop : TaskStopped ≤ task.knownStatus
      · rw [if_pos hstop]
        exact ih events h
      · rw [if_neg hstop]
        exact ih _ (nodup_mapKeys_mapPut events k _ h)

theorem nodup_managedAgentPass (state : String → Option Task)
    (buf : List (String × List ManagedAgentStateChange))
    (events : List (String × TaskStateChange)) (h : (mapKeys events).Nodup) :
    (mapKeys (managedAgentPass state buf events)).Nodup := by
  induction buf generalizing events with
  | nil => exact h
  | cons q rest ih =>
    obtain ⟨k, v⟩ := q
    cases hs : state k with
    | none =>
      simp only [managedAgentPass, hs]
      by_cases hg : (mapGet events k).isSome = true
      · rw [if_pos hg]
        exact ih events h
      · rw [if_neg hg]
        exact ih events h
    | some task =>
      simp only [managedAgentPass, hs]
      by_cases hg : (mapGet events k).isSome = true
      · rw [if_pos hg]
        exact ih events h
      · rw [if_neg hg]
        by_cases hstop : TaskStopped ≤ task.knownStatus
        · rw [if_pos hstop]
          exact ih events h
        · rw [if_neg hstop]
          exact ih _ (nodup_mapKeys_mapPut events k _ h)

theorem map_taskARN_values (l : List (String × TaskStateChange)) (h : valuesKeyed l) :
    (l.map Prod.snd).map TaskStateChange.taskARN = mapKeys l := by
  induction l with
  | nil => rfl
  | cons p rest ih =>
    simp only [List.map_cons, mapKeys]
    rw [h p (List.mem_cons_self _ _)]
    have h2 := ih (fun q hq => h q (List.mem_cons_of_mem _ hq))
    rw [mapKeys] at h2
    rw [h2]

/-- C8: for every registry state whose batch-buffer entries are
non-empty (as the handler maintains: entries are only created by
appending and are deleted whole by the flush), the ticker's synthesis
returns at most one synthetic task state change per ARN; every returned
event belongs to an ARN with at least one buffered container or
managed-agent change whose task the engine knows with status below
`TaskStopped`, and it carries that task, its current known status and
populated timestamps; conversely every such ARN gets its synthetic
event, which equals the container pass's construction — the
managed-agent pass never overwrites it. -/
theorem taskStateChangesToSend_spec (state : String → Option Task) (h : TaskHandler)
    (hne1 : ∀ p ∈ h.tasksToContainerStates, Prod.snd p ≠ ([] : List ContainerStateChange))
    (hne2 : ∀ p ∈ h.tasksToManagedAgentStates,
      Prod.snd p ≠ ([] : List ManagedAgentStateChange)) :
    ((taskStateChangesToSend state h).map TaskStateChange.taskARN).Nodup ∧
    (∀ ev ∈ taskStateChangesToSend state h,
      ∃ task, state ev.taskARN = some task ∧ task.knownStatus < TaskStopped ∧
        ev = drainTaskEvent ev.taskARN task ∧ ev.status = task.knownStatus ∧
        ev.timestampsSet = true ∧
        ((∃ l, mapGet h.tasksToContainerStates ev.taskARN = some l ∧ l ≠ []) ∨
          (∃ l, mapGet h.tasksToManagedAgentStates ev.taskARN = some l ∧ l ≠ []))) ∧
    (∀ arn task, state arn = some task → task.knownStatus < TaskStopped →
      (arn ∈ mapKeys h.tasksToContainerStates ∨ arn ∈ mapKeys h.tasksToManagedAgentStates) →
      drainTaskEvent arn task ∈ taskStateChangesToSend state h) := by
  have hvk : valuesKeyed (managedAgentPass state h.tasksToManagedAgentStates
      (containerPass state h.tasksToContainerStates [])) :=
    valuesKeyed_managedAgentPass state _ _
      (valuesKeyed_containerPass state _ [] (fun p hp => absurd hp (List.not_mem_nil _)))
  have hnd : (mapKeys (managedAgentPass state h.tasksToManagedAgentStates
      (containerPass state h.tasksToContainerStates []))).Nodup :=
    nodup_managedAgentPass state _ _
      (nodup_containerPass state _ [] (by simp [mapKeys]))
  refine ⟨?_, ?_, ?_⟩
  · rw [taskStateChangesToSend, map_taskARN_values _ hvk]
    exact hnd
  · intro ev hev
    rw [taskStateChangesToSend] at hev
    obtain ⟨p, hp, hpev⟩ := List.mem_map.mp hev
    obtain ⟨k, v⟩ := p
    have hkey : ev.taskARN = k := by
      have := hvk (k, v) hp
      simp only at this hpev
      rw [hpev] at this
      exact this
    have hget : mapGet (managedAgentPass state h.tasksToManagedAgentStates
        (containerPass state h.tasksToContainerStates [])) k = some ev := by
      have := mapGet_eq_of_mem_nodup _ k v hp hnd
      simp only at hpev
      rw [hpev] at this
      exact this
    obtain ⟨hcand, hmm⟩ := mapGet_pipeline_inv state _ _ k ev hget
    rcases (tickerCandidate_some state k ev).mp hcand with ⟨task, hs, hlt, hev2⟩
    refine ⟨task, by rw [hkey]; exact hs, hlt, by rw [hkey]; exact hev2, ?_, ?_, ?_⟩
    · rw [hev2]
      rfl
    · rw [hev2]
      rfl
    · rcases hmm with hmem | hmem
      · left
        obtain ⟨l, hl⟩ := Option.isSome_iff_exists.mp
          (mem_keys_mapGet_isSome h.tasksToContainerStates k hmem)
        exact ⟨l, by rw [hkey]; exact hl, hne1 (k, l) (mapGet_some_mem _ _ _ hl)⟩
      · right
        obtain ⟨l, hl⟩ := Option.isSome_iff_exists.mp
          (mem_keys_mapGet_isSome h.tasksToManagedAgentStates k hmem)
        exact ⟨l, by rw [hkey]; exact hl, hne2 (k, l) (mapGet_some_mem _ _ _ hl)⟩
  · intro arn task hs hlt hmm
    have hcand : tickerCandidate state arn = some (drainTaskEvent arn task) :=
      (tickerCandidate_some state arn (drainTaskEvent arn task)).mpr ⟨task, hs, hlt, rfl⟩
    have hget : mapGet (managedAgentPass state h.tasksToManagedAgentStates
        (containerPass state h.tasksToContainerStates [])) arn =
        some (drainTaskEvent arn task) := by
      rcases hmm with hmem | hmem
      · exact mapGet_managedAgentPass_pres state _ _ arn _
          (mapGet_containerPass_mem state _ [] arn _ hmem hcand)
      · cases hE1 : mapGet (containerPass state h.tasksToContainerStates []) arn with
        | some ev0 =>
          obtain ⟨hm1, hc1⟩ := mapGet_containerPass_inv state _ arn ev0 hE1
          have he : drainTaskEvent arn task = ev0 := by
            injection hcand.symm.trans hc1
          rw [he]
          exact mapGet_managedAgentPass_pres state _ _ arn _ hE1
        | none =>
          exact mapGet_managedAgentPass_mem state _ _ arn _ hmem hcand hE1
    rw [taskStateChangesToSend]
    exact List.mem_map.mpr ⟨(arn, drainTaskEvent arn task), mapGet_some_mem _ _ _ hget, rfl⟩

def witnessTask1 : Task := { arn := "arn-1", knownStatus := 4 }

def witnessTask2 : Task := { arn := "arn-2", knownStatus := 6 }

/-- A concrete task-engine state: `arn-1` running, `arn-2` stopped,
everything else unknown. -/
def witnessState : String → Option Task := fun arn =>
  if arn = "arn-1" then some witnessTask1
  else if arn = "arn-2" then some witnessTask2
  else none

def witnessHandler : TaskHandler :=
  { tasksToEvents := [],
    tasksToContainerStates :=
      [("arn-1", [{ taskArn := "arn-1" }]), ("arn-2", [{ taskArn := "arn-2" }])],
    tasksToManagedAgentStates := [("arn-1", [{ taskArn := "arn-1" }])] }

theorem taskStateChangesToSend_spec_witness :
    (∀ p ∈ witnessHandler.tasksToContainerStates,
      Prod.snd p ≠ ([] : List ContainerStateChange)) ∧
    (∀ p ∈ witnessHandler.tasksToManagedAgentStates,
      Prod.snd p ≠ ([] : List ManagedAgentStateChange)) ∧
    ((taskStateChangesToSend witnessState witnessHandler).map TaskStateChange.taskARN).Nodup := by
  refine ⟨?_, ?_, ?_⟩
  · decide
  · decide
  · exact (taskStateChangesToSend_spec witnessState witnessHandler (by decide) (by decide)).1

end EventHandler
